import Mathlib

/-!
# Verification of the perfetto trace-redaction pipeline specification

A shallow embedding of the trace-redaction pipeline (allowlist-based ftrace
event filtering, the Collector/Transform orchestration with its all-or-nothing
output contract) and of the `VisualisedArgsTrack` helper-view construction,
together with theorems settling the specification's claims.

The pipeline implementations (`TraceRedactor`, `PopulateAllowlists`,
`ScrubFtraceEvents`, `FilterFtraceUsingAllowlist`, `Context`) are exercised by
`src/trace_redaction/filter_ftrace_using_allowlist_integrationtest.cc` but are
not themselves part of the repository snapshot; they are modelled from the
specification, following the layered proto decoding that the integration test
performs (`Trace` → `TracePacket` → `FtraceEventBundle` → `FtraceEvent`).
-/

namespace TraceRedaction

/-! ## Binary packet codec

Protobuf-style wire encoding: a message is a sequence of fields, each a
varint-encoded tag (`field_number * 8 + wire_type`) followed by either a
varint payload (wire type 0) or a length-prefixed byte payload (wire type 2).
These are the two wire types the ftrace-filtering pipeline touches.
-/

/-- A decoded wire value: a varint scalar or a length-delimited payload. -/
inductive WireVal : Type where
  | varint (n : Nat) : WireVal
  | lenDelim (payload : List Nat) : WireVal
  deriving DecidableEq, Repr

/-- A decoded field: field number paired with its wire value. -/
abbrev RawField : Type := Nat × WireVal

/-- Base-128 varint encoding, least-significant group first; the fuel only
bounds the recursion depth (`n` itself is always enough, see
`encodeVarint`). -/
def encodeVarintAux : Nat → Nat → List Nat
  | 0, n => [n % 128]
  | fuel + 1, n =>
      if n < 128 then [n] else (n % 128 + 128) :: encodeVarintAux fuel (n / 128)

/-- Base-128 varint encoding, least-significant group first. -/
def encodeVarint (n : Nat) : List Nat :=
  encodeVarintAux n n

/-- Base-128 varint decoding; returns the value and the remaining bytes. -/
def decodeVarint : List Nat → Option (Nat × List Nat)
  | [] => none
  | b :: rest =>
      if b < 128 then some (b, rest)
      else
        match decodeVarint rest with
        | some (n, rest2) => some (b - 128 + 128 * n, rest2)
        | none => none

/-- Serialize one field: varint tag, then the wire-type-specific payload. -/
def encodeField : RawField → List Nat
  | (fid, WireVal.varint n) => encodeVarint (fid * 8) ++ encodeVarint n
  | (fid, WireVal.lenDelim p) =>
      encodeVarint (fid * 8 + 2) ++ encodeVarint p.length ++ p

/-- Serialize a field sequence back-to-back. -/
def encodeMsg (fields : List RawField) : List Nat :=
  (fields.map encodeField).flatten

/-- Decode a single field from the head of the buffer; `none` on a malformed
tag, an unsupported wire type or a truncated length-delimited payload. -/
def decodeField (bs : List Nat) : Option (RawField × List Nat) :=
  match decodeVarint bs with
  | none => none
  | some (tag, r1) =>
      if tag % 8 = 0 then
        match decodeVarint r1 with
        | none => none
        | some (n, r2) => some ((tag / 8, WireVal.varint n), r2)
      else if tag % 8 = 2 then
        match decodeVarint r1 with
        | none => none
        | some (len, r2) =>
            if len ≤ r2.length then
              some ((tag / 8, WireVal.lenDelim (r2.take len)), r2.drop len)
            else none
      else none

/-- Fuelled message decoding: parse fields until the buffer is exhausted. -/
def decodeMsgFuel : Nat → List Nat → Option (List RawField)
  | _, [] => some []
  | 0, _ :: _ => none
  | fuel + 1, b :: bs =>
      match decodeField (b :: bs) with
      | none => none
      | some (f, rest) =>
          match decodeMsgFuel fuel rest with
          | none => none
          | some fs => some (f :: fs)

/-- Decode a whole buffer into its field sequence.  Each field consumes at
least one byte, so the buffer length is always enough fuel. -/
def decodeMsg (bs : List Nat) : Option (List RawField) :=
  decodeMsgFuel bs.length bs

/-! ### Codec roundtrip lemmas -/

theorem decodeVarint_encodeVarintAux (fuel : Nat) :
    ∀ (n : Nat), n ≤ fuel → ∀ (rest : List Nat),
    decodeVarint (encodeVarintAux fuel n ++ rest) = some (n, rest) := by
  induction fuel with
  | zero =>
      intro n hn rest
      have h0 : n = 0 := Nat.le_zero.mp hn
      subst h0
      simp [encodeVarintAux, decodeVarint]
  | succ k ih =>
      intro n hn rest
      by_cases h : n < 128
      · simp [encodeVarintAux, h, decodeVarint]
      · have hdiv : n / 128 < n := Nat.div_lt_self (by omega) (by omega)
        rw [encodeVarintAux]
        simp only [h, if_false, List.cons_append]
        rw [decodeVarint]
        simp only [show ¬(n % 128 + 128 < 128) by omega, if_false]
        rw [ih (n / 128) (by omega) rest]
        have heq : n % 128 + 128 * (n / 128) = n := Nat.mod_add_div n 128
        simp [heq]

theorem decodeVarint_encodeVarint (n : Nat) (rest : List Nat) :
    decodeVarint (encodeVarint n ++ rest) = some (n, rest) :=
  decodeVarint_encodeVarintAux n n (Nat.le_refl n) rest

theorem encodeVarint_ne_nil (n : Nat) : encodeVarint n ≠ [] := by
  rw [encodeVarint]
  cases n with
  | zero => simp [encodeVarintAux]
  | succ m =>
      rw [encodeVarintAux]
      split <;> simp

theorem decodeField_encodeField (f : RawField) (rest : List Nat) :
    decodeField (encodeField f ++ rest) = some (f, rest) := by
  obtain ⟨fid, v⟩ := f
  cases v with
  | varint n =>
      simp only [encodeField, List.append_assoc, decodeField,
        decodeVarint_encodeVarint]
      simp [Nat.mul_mod_left, Nat.mul_div_cancel_left _ (by omega : 0 < 8),
        decodeVarint_encodeVarint]
  | lenDelim p =>
      simp only [encodeField, List.append_assoc, decodeField,
        decodeVarint_encodeVarint]
      have hmod : (fid * 8 + 2) % 8 = 2 := by omega
      have hdivtag : (fid * 8 + 2) / 8 = fid := by omega
      simp only [hmod, decodeVarint_encodeVarint, hdivtag]
      simp [List.take_append_of_le_length, List.drop_append_of_le_length,
        List.take_left, List.drop_left]

theorem encodeField_ne_nil (f : RawField) : encodeField f ≠ [] := by
  obtain ⟨fid, v⟩ := f
  cases v with
  | varint n =>
      simp only [encodeField, ne_eq, List.append_eq_nil]
      rintro ⟨h1, -⟩
      exact encodeVarint_ne_nil _ h1
  | lenDelim p =>
      simp only [encodeField, ne_eq, List.append_eq_nil]
      rintro ⟨⟨h1, -⟩, -⟩
      exact encodeVarint_ne_nil _ h1

theorem decodeMsgFuel_encodeMsg (fields : List RawField) (fuel : Nat)
    (hfuel : fields.length ≤ fuel) :
    decodeMsgFuel fuel (encodeMsg fields) = some fields := by
  induction fields generalizing fuel with
  | nil =>
      cases fuel <;> simp [encodeMsg, decodeMsgFuel]
  | cons f fs ih =>
      obtain ⟨fuel, rfl⟩ : ∃ k, fuel = k + 1 := by
        cases fuel
        · simp at hfuel
        · exact ⟨_, rfl⟩
      have henc : encodeMsg (f :: fs) = encodeField f ++ encodeMsg fs := by
        simp [encodeMsg]
      obtain ⟨b, bs, hcons⟩ : ∃ b bs, encodeField f ++ encodeMsg fs = b :: bs := by
        cases hf : encodeField f with
        | nil => exact absurd hf (encodeField_ne_nil f)
        | cons b bs => exact ⟨b, bs ++ encodeMsg fs, by simp⟩
      rw [henc, hcons, decodeMsgFuel, ← hcons, decodeField_encodeField]
      simp [ih fuel (by simpa using Nat.le_of_succ_le_succ hfuel)]

theorem encodeMsg_length_ge (fields : List RawField) :
    fields.length ≤ (encodeMsg fields).length := by
  induction fields with
  | nil => simp [encodeMsg]
  | cons f fs ih =>
      have : encodeMsg (f :: fs) = encodeField f ++ encodeMsg fs := by
        simp [encodeMsg]
      rw [this]
      have hpos : 0 < (encodeField f).length := by
        cases hf : encodeField f with
        | nil => exact absurd hf (encodeField_ne_nil f)
        | cons b bs => simp
      simp only [List.length_append, List.length_cons]
      omega

/-- The flat codec roundtrip: re-serializing any field sequence yields a
buffer the decoder accepts, recovering the sequence exactly. -/
theorem decodeMsg_encodeMsg (fields : List RawField) :
    decodeMsg (encodeMsg fields) = some fields :=
  decodeMsgFuel_encodeMsg fields _ (encodeMsg_length_ge fields)

/-! ## Proto navigation constants

Modelled from the spec: the proto schema files (`trace.proto`,
`trace_packet.proto`, `ftrace_event_bundle.proto`, `ftrace_event.proto`) are
not part of the snapshot; only the field names appear in the integration
test.  The constants below are distinct field numbers for the fields the
test navigates: `Trace.packet`, `TracePacket.ftrace_events`,
`FtraceEventBundle.event`, and the `FtraceEvent` members. -/

def kPacketFieldNumber : Nat := 1
def kFtraceEventsFieldNumber : Nat := 1
def kEventFieldNumber : Nat := 2

def kTimestampFieldNumber : Nat := 1
def kPidFieldNumber : Nat := 2
def kPrintFieldNumber : Nat := 3
def kSchedSwitchFieldNumber : Nat := 4
def kCpuFrequencyFieldNumber : Nat := 11
def kCpuIdleFieldNumber : Nat := 12
def kSchedWakeupFieldNumber : Nat := 17
def kSchedWakingFieldNumber : Nat := 18
def kSchedWakeupNewFieldNumber : Nat := 19
def kTaskNewtaskFieldNumber : Nat := 20
def kTaskRenameFieldNumber : Nat := 21
def kSchedProcessExitFieldNumber : Nat := 22
def kSchedProcessFreeFieldNumber : Nat := 23
def kOomScoreAdjUpdateFieldNumber : Nat := 24

/-! ## Context and the allowlist Collector -/

/-- Modelled from the spec: `Context` (trace_redaction_framework) is a
mapping-like store of derived facts keyed by purpose; a slot is `none` until
the Collector responsible for it runs. -/
def Context : Type := String → Option (List Nat)

/-- The name of the Context slot holding the ftrace event allowlist. -/
def ftraceAllowlistSlot : String := "ftrace_packet_allow_list"

/-- The empty Context a redaction run starts from. -/
def Context.empty : Context := fun _ => none

/-- Write a slot (Collector phase). -/
def Context.write (ctx : Context) (slot : String) (v : List Nat) : Context :=
  fun s => if s = slot then some v else ctx s

/-- Modelled from the spec: reading a slot that no Collector populated is
signaled as an error carrying the slot name, never silently defaulted. -/
def Context.read (ctx : Context) (slot : String) : Except String (List Nat) :=
  match ctx slot with
  | none => Except.error ("missing context slot: " ++ slot)
  | some v => Except.ok v

/-- Modelled from the spec: `PopulateAllowlists` statically enumerates the
known-safe ftrace event identifiers (a fixed safety policy, independent of
trace content).  The membership shown here is the one the integration test
observes: seven permitted event types. -/
def PopulateAllowlists.allowlist : List Nat :=
  [kCpuFrequencyFieldNumber, kCpuIdleFieldNumber, kSchedProcessFreeFieldNumber,
   kSchedSwitchFieldNumber, kSchedWakingFieldNumber, kTaskNewtaskFieldNumber,
   kTaskRenameFieldNumber]

/-- The `PopulateAllowlists` Collector: populates the allowlist slot from the
static policy table, reading nothing from the trace. -/
def PopulateAllowlists.collect (ctx : Context) : Except String Context :=
  Except.ok (ctx.write ftraceAllowlistSlot PopulateAllowlists.allowlist)

/-! ## The FilterFtraceUsingAllowlist primitive

Modelled from the spec: given the bundle's sub-events, each sub-event's
event-type identifier is the distinguishing field tag within the sub-event's
own encoding — the shared `timestamp` and `pid` fields are never treated as
the discriminator.  A sub-event is kept entirely iff its identifier is in the
allowlist; a sub-event with no discriminating field fails closed (dropped). -/

/-- `timestamp` and `pid` are fields that exist alongside the event, not
events (integration test, `RetainsAllowedEvents`). -/
def accompanyingField (fid : Nat) : Bool :=
  fid = kTimestampFieldNumber || fid = kPidFieldNumber

/-- The event-type identifier of a decoded sub-event: the field number of its
first non-accompanying field. -/
def eventTypeId (fields : List RawField) : Option Nat :=
  (fields.find? (fun f => !accompanyingField f.1)).map (fun f => f.1)

/-- Keep/drop decision for one sub-event: binary, on the discriminator. -/
def keepEvent (allow : List Nat) (fields : List RawField) : Bool :=
  match eventTypeId fields with
  | some id => allow.contains id
  | none => false

/-- Apply the allowlist filter to the decoded fields of one
`FtraceEventBundle`: `event` fields whose payload's discriminator is not
permitted are excised; all other fields pass through byte-identical.  An
`event` field that cannot be decoded is a decode error, fatal to the run. -/
def FilterFtraceUsingAllowlist.filterBundle (allow : List Nat) :
    List RawField → Except String (List RawField)
  | [] => Except.ok []
  | (fid, v) :: rest => do
      let tail ← FilterFtraceUsingAllowlist.filterBundle allow rest
      if fid = kEventFieldNumber then
        match v with
        | WireVal.lenDelim payload =>
            match decodeMsg payload with
            | none => Except.error "FilterFtraceUsingAllowlist: malformed event"
            | some evFields =>
                if keepEvent allow evFields then Except.ok ((fid, v) :: tail)
                else Except.ok tail
        | WireVal.varint _ =>
            Except.error "FilterFtraceUsingAllowlist: unexpected wire type"
      else Except.ok ((fid, v) :: tail)

/-! ## The ScrubFtraceEvents transform

Modelled from the spec: the transform walks each packet; a packet's
`ftrace_events` bundle is decoded, its primitives (here the allowlist filter)
are applied to the bundle, and the bundle is re-serialized with its outer
length corrected.  Fields other than the targeted ones pass through
byte-identical. -/

def ScrubFtraceEvents.scrubPacket (allow : List Nat) :
    List RawField → Except String (List RawField)
  | [] => Except.ok []
  | (fid, v) :: rest => do
      let tail ← ScrubFtraceEvents.scrubPacket allow rest
      if fid = kFtraceEventsFieldNumber then
        match v with
        | WireVal.lenDelim payload =>
            match decodeMsg payload with
            | none => Except.error "ScrubFtraceEvents: malformed event bundle"
            | some bundleFields => do
                let bundleFields' ←
                  FilterFtraceUsingAllowlist.filterBundle allow bundleFields
                Except.ok ((fid, WireVal.lenDelim (encodeMsg bundleFields')) :: tail)
        | WireVal.varint _ =>
            Except.error "ScrubFtraceEvents: unexpected wire type"
      else Except.ok ((fid, v) :: tail)

def ScrubFtraceEvents.scrubTrace (allow : List Nat) :
    List RawField → Except String (List RawField)
  | [] => Except.ok []
  | (fid, v) :: rest => do
      let tail ← ScrubFtraceEvents.scrubTrace allow rest
      if fid = kPacketFieldNumber then
        match v with
        | WireVal.lenDelim payload =>
            match decodeMsg payload with
            | none => Except.error "ScrubFtraceEvents: malformed packet"
            | some packetFields => do
                let packetFields' ← ScrubFtraceEvents.scrubPacket allow packetFields
                Except.ok ((fid, WireVal.lenDelim (encodeMsg packetFields')) :: tail)
        | WireVal.varint _ =>
            Except.error "ScrubFtraceEvents: unexpected wire type"
      else Except.ok ((fid, v) :: tail)

/-- The whole transform at the byte level: decode the trace, scrub every
packet, re-serialize. -/
def ScrubFtraceEvents.scrub (allow : List Nat) (traceBytes : List Nat) :
    Except String (List Nat) :=
  match decodeMsg traceBytes with
  | none => Except.error "ScrubFtraceEvents: malformed trace"
  | some traceFields => do
      let traceFields' ← ScrubFtraceEvents.scrubTrace allow traceFields
      Except.ok (encodeMsg traceFields')

/-! ## The decoder of the integration test

`ParseEvents` decodes `Trace` → `TracePacket` → `FtraceEventBundle` →
`FtraceEvent` and tallies the field numbers seen across all sub-events.
`none` means the buffer (or a nested payload on that path) is rejected. -/

/-- All decoded sub-events of one bundle's field list. -/
def eventsInBundle : List RawField → Option (List (List RawField))
  | [] => some []
  | (fid, v) :: rest => do
      let tail ← eventsInBundle rest
      if fid = kEventFieldNumber then
        match v with
        | WireVal.lenDelim payload => do
            let evFields ← decodeMsg payload
            some (evFields :: tail)
        | WireVal.varint _ => none
      else some tail

/-- All decoded sub-events reachable from one packet's field list. -/
def eventsInPacket : List RawField → Option (List (List RawField))
  | [] => some []
  | (fid, v) :: rest => do
      let tail ← eventsInPacket rest
      if fid = kFtraceEventsFieldNumber then
        match v with
        | WireVal.lenDelim payload => do
            let bundleFields ← decodeMsg payload
            let evs ← eventsInBundle bundleFields
            some (evs ++ tail)
        | WireVal.varint _ => none
      else some tail

/-- All decoded sub-events reachable from the trace's field list. -/
def eventsInTrace : List RawField → Option (List (List RawField))
  | [] => some []
  | (fid, v) :: rest => do
      let tail ← eventsInTrace rest
      if fid = kPacketFieldNumber then
        match v with
        | WireVal.lenDelim payload => do
            let packetFields ← decodeMsg payload
            let evs ← eventsInPacket packetFields
            some (evs ++ tail)
        | WireVal.varint _ => none
      else some tail

/-- Decode a trace buffer down to its sub-events; `none` when any level of
the nesting is rejected by the decoder. -/
def allEvents (bytes : List Nat) : Option (List (List RawField)) := do
  let traceFields ← decodeMsg bytes
  eventsInTrace traceFields

/-- The integration test's `ParseEvents`: the deduplicated field numbers
gathered from across all sub-events (this includes fields like timestamp). -/
def parseEventsIds (bytes : List Nat) : Option (List Nat) :=
  (allEvents bytes).map (fun evs => ((evs.map (fun ev => ev.map (fun f => f.1))).flatten).dedup)

/-- The event-type identifiers observed in a buffer: the discriminator of
each decoded sub-event. -/
def observedEventTypeIds (bytes : List Nat) : Option (List Nat) :=
  (allEvents bytes).map (fun evs => evs.filterMap eventTypeId)

/-! ## The TraceRedactor orchestrator

Modelled from the spec: `redact(source_path, dest_path, &mut Context)` opens
the source, runs the registered Collectors in order against it to populate
the Context, runs the registered Transforms in order over the bytes, and only
on success commits the output to the destination path; on any failure the
destination is untouched.  The filesystem is modelled as the optional content
at the two paths. -/

/-- A Collector: reads the source trace, populates Context, may fail. -/
def Collector : Type := List Nat → Context → Except String Context

/-- A Transform: rewrites trace bytes using the read-only Context. -/
def Transform : Type := Context → List Nat → Except String (List Nat)

def TraceRedactor.runCollectors (cs : List Collector) (src : List Nat)
    (ctx : Context) : Except String Context :=
  cs.foldlM (fun c k => k src c) ctx

def TraceRedactor.runTransforms (ts : List Transform) (ctx : Context)
    (bytes : List Nat) : Except String (List Nat) :=
  ts.foldlM (fun b t => t ctx b) bytes

/-- Outcome of one redaction run: the status reported to the caller and the
content at the destination path afterwards. -/
structure RedactRun where
  status : Except String Unit
  dest : Option (List Nat)

/-- Modelled from the spec: the orchestrator's `Redact`.  `srcFile` is the
readable content of the source path (`none` when unreadable), `destBefore`
the pre-existing content of the destination path. -/
def TraceRedactor.Redact (cs : List Collector) (ts : List Transform)
    (srcFile : Option (List Nat)) (destBefore : Option (List Nat)) : RedactRun :=
  match srcFile with
  | none => ⟨Except.error "I/O error: failed to read source trace", destBefore⟩
  | some src =>
      match TraceRedactor.runCollectors cs src Context.empty with
      | Except.error e => ⟨Except.error e, destBefore⟩
      | Except.ok ctx =>
          match TraceRedactor.runTransforms ts ctx src with
          | Except.error e => ⟨Except.error e, destBefore⟩
          | Except.ok out => ⟨Except.ok (), some out⟩

/-- The `PopulateAllowlists` Collector as registered with the orchestrator
(`redactor_.emplace_build<PopulateAllowlists>()`). -/
def PopulateAllowlists.collector : Collector :=
  fun _src ctx => PopulateAllowlists.collect ctx

/-- The `ScrubFtraceEvents` Transform as registered with the orchestrator:
it reads the allowlist slot from the Context and scrubs the trace with it. -/
def ScrubFtraceEvents.transform : Transform :=
  fun ctx bytes => do
    let allow ← Context.read ctx ftraceAllowlistSlot
    ScrubFtraceEvents.scrub allow bytes

/-- The pipeline the integration test assembles in `SetUp`. -/
def testPipeline (srcFile destBefore : Option (List Nat)) : RedactRun :=
  TraceRedactor.Redact [PopulateAllowlists.collector] [ScrubFtraceEvents.transform]
    srcFile destBefore

/-! ## Primitive composition within one Transform

Modelled from the spec: a Transform owns an ordered list of Primitives, each
`apply(packet, &Context) -> modified_packet`, applied in declared order to
every relevant packet. -/

/-- A Primitive: a Context-scoped rewrite rule on one packet. -/
def Primitive : Type := Context → List RawField → List RawField

/-- Apply an ordered list of primitives to one packet (one pass). -/
def Transform.applyPrimitives (ps : List Primitive) (ctx : Context)
    (packet : List RawField) : List RawField :=
  ps.foldl (fun pk p => p ctx pk) packet

/-- One pass over the trace: every packet gets all primitives at once. -/
def Transform.onePass (ps : List Primitive) (ctx : Context)
    (trace : List (List RawField)) : List (List RawField) :=
  trace.map (Transform.applyPrimitives ps ctx)

/-- n successive passes over the trace, one primitive per pass. -/
def Transform.successivePasses (ps : List Primitive) (ctx : Context)
    (trace : List (List RawField)) : List (List RawField) :=
  ps.foldl (fun tr p => tr.map (p ctx)) trace

/-! ## Relating the scrub transform to the decoded event lists -/

theorem filterBundle_events (allow : List Nat) (bf : List RawField) :
    ∀ (evs : List (List RawField)), eventsInBundle bf = some evs →
    ∃ bf', FilterFtraceUsingAllowlist.filterBundle allow bf = Except.ok bf' ∧
      eventsInBundle bf' = some (evs.filter (keepEvent allow)) := by
  induction bf with
  | nil =>
      intro evs h
      simp [eventsInBundle] at h
      subst h
      exact ⟨[], rfl, rfl⟩
  | cons fv rest ih =>
      intro evs h
      obtain ⟨fid, v⟩ := fv
      rw [eventsInBundle] at h
      cases h1 : eventsInBundle rest with
      | none => rw [h1] at h; simp at h
      | some tailEvs =>
          rw [h1] at h
          obtain ⟨rest', hr, hre⟩ := ih tailEvs h1
          by_cases hfid : fid = kEventFieldNumber
          · cases v with
            | varint n => simp [hfid] at h
            | lenDelim payload =>
                cases h2 : decodeMsg payload with
                | none => simp [hfid, h2] at h
                | some evFields =>
                    simp only [hfid, if_true, eq_self_iff_true, h2,
                      Option.some_bind] at h
                    obtain rfl : evFields :: tailEvs = evs := by
                      simpa using h
                    by_cases hkeep : keepEvent allow evFields
                    · refine ⟨(fid, WireVal.lenDelim payload) :: rest', ?_, ?_⟩
                      · rw [FilterFtraceUsingAllowlist.filterBundle, hr]
                        simp [hfid, h2, hkeep, Bind.bind, Except.bind]
                      · rw [eventsInBundle, hre]
                        simp [hfid, h2, List.filter_cons, hkeep]
                    · refine ⟨rest', ?_, ?_⟩
                      · rw [FilterFtraceUsingAllowlist.filterBundle, hr]
                        simp [hfid, h2, hkeep, Bind.bind, Except.bind]
                      · rw [hre]
                        simp [List.filter_cons, hkeep]
          · obtain rfl : tailEvs = evs := by
              simpa [hfid] using h
            refine ⟨(fid, v) :: rest', ?_, ?_⟩
            · rw [FilterFtraceUsingAllowlist.filterBundle, hr]
              simp [hfid, Bind.bind, Except.bind]
            · rw [eventsInBundle, hre]
              simp [hfid]

theorem scrubPacket_events (allow : List Nat) (pf : List RawField) :
    ∀ (evs : List (List RawField)), eventsInPacket pf = some evs →
    ∃ pf', ScrubFtraceEvents.scrubPacket allow pf = Except.ok pf' ∧
      eventsInPacket pf' = some (evs.filter (keepEvent allow)) := by
  induction pf with
  | nil =>
      intro evs h
      simp [eventsInPacket] at h
      subst h
      exact ⟨[], rfl, rfl⟩
  | cons fv rest ih =>
      intro evs h
      obtain ⟨fid, v⟩ := fv
      rw [eventsInPacket] at h
      cases h1 : eventsInPacket rest with
      | none => rw [h1] at h; simp at h
      | some tailEvs =>
          rw [h1] at h
          obtain ⟨rest', hr, hre⟩ := ih tailEvs h1
          by_cases hfid : fid = kFtraceEventsFieldNumber
          · cases v with
            | varint n => simp [hfid] at h
            | lenDelim payload =>
                cases h2 : decodeMsg payload with
                | none => simp [hfid, h2] at h
                | some bundleFields =>
                    cases h3 : eventsInBundle bundleFields with
                    | none => simp [hfid, h2, h3] at h
                    | some bevs =>
                        obtain rfl : bevs ++ tailEvs = evs := by
                          simpa [hfid, h2, h3] using h
                        obtain ⟨bundleFields', hb, hbe⟩ :=
                          filterBundle_events allow bundleFields bevs h3
                        refine ⟨(fid, WireVal.lenDelim (encodeMsg bundleFields')) :: rest',
                          ?_, ?_⟩
                        · rw [ScrubFtraceEvents.scrubPacket, hr]
                          simp [hfid, h2, hb, Bind.bind, Except.bind]
                        · rw [eventsInPacket, hre]
                          simp [hfid, decodeMsg_encodeMsg, hbe, List.filter_append]
          · obtain rfl : tailEvs = evs := by
              simpa [hfid] using h
            refine ⟨(fid, v) :: rest', ?_, ?_⟩
            · rw [ScrubFtraceEvents.scrubPacket, hr]
              simp [hfid, Bind.bind, Except.bind]
            · rw [eventsInPacket, hre]
              simp [hfid]

theorem scrubTrace_events (allow : List Nat) (tf : List RawField) :
    ∀ (evs : List (List RawField)), eventsInTrace tf = some evs →
    ∃ tf', ScrubFtraceEvents.scrubTrace allow tf = Except.ok tf' ∧
      eventsInTrace tf' = some (evs.filter (keepEvent allow)) := by
  induction tf with
  | nil =>
      intro evs h
      simp [eventsInTrace] at h
      subst h
      exact ⟨[], rfl, rfl⟩
  | cons fv rest ih =>
      intro evs h
      obtain ⟨fid, v⟩ := fv
      rw [eventsInTrace] at h
      cases h1 : eventsInTrace rest with
      | none => rw [h1] at h; simp at h
      | some tailEvs =>
          rw [h1] at h
          obtain ⟨rest', hr, hre⟩ := ih tailEvs h1
          by_cases hfid : fid = kPacketFieldNumber
          · cases v with
            | varint n => simp [hfid] at h
            | lenDelim payload =>
                cases h2 : decodeMsg payload with
                | none => simp [hfid, h2] at h
                | some packetFields =>
                    cases h3 : eventsInPacket packetFields with
                    | none => simp [hfid, h2, h3] at h
                    | some pevs =>
                        obtain rfl : pevs ++ tailEvs = evs := by
                          simpa [hfid, h2, h3] using h
                        obtain ⟨packetFields', hp, hpe⟩ :=
                          scrubPacket_events allow packetFields pevs h3
                        refine ⟨(fid, WireVal.lenDelim (encodeMsg packetFields')) :: rest',
                          ?_, ?_⟩
                        · rw [ScrubFtraceEvents.scrubTrace, hr]
                          simp [hfid, h2, hp, Bind.bind, Except.bind]
                        · rw [eventsInTrace, hre]
                          simp [hfid, decodeMsg_encodeMsg, hpe, List.filter_append]
          · obtain rfl : tailEvs = evs := by
              simpa [hfid] using h
            refine ⟨(fid, v) :: rest', ?_, ?_⟩
            · rw [ScrubFtraceEvents.scrubTrace, hr]
              simp [hfid, Bind.bind, Except.bind]
            · rw [eventsInTrace, hre]
              simp [hfid]

/-- The central correspondence: on any buffer the decoder accepts, the scrub
transform succeeds and its output decodes to exactly the sub-events that pass
the allowlist, in order, byte-identical. -/
theorem scrub_allEvents (allow : List Nat) (bytes : List Nat)
    (evs : List (List RawField)) (h : allEvents bytes = some evs) :
    ∃ out, ScrubFtraceEvents.scrub allow bytes = Except.ok out ∧
      allEvents out = some (evs.filter (keepEvent allow)) := by
  rw [allEvents] at h
  cases h1 : decodeMsg bytes with
  | none => rw [h1] at h; simp at h
  | some traceFields =>
      rw [h1] at h
      have h2 : eventsInTrace traceFields = some evs := by simpa using h
      obtain ⟨traceFields', ht, hte⟩ := scrubTrace_events allow traceFields evs h2
      refine ⟨encodeMsg traceFields', ?_, ?_⟩
      · rw [ScrubFtraceEvents.scrub, h1]
        simp [ht, Bind.bind, Except.bind]
      · rw [allEvents, decodeMsg_encodeMsg]
        simpa using hte

/-! ### Idempotence of the allowlist filter -/

theorem filterBundle_idem (allow : List Nat) (bf : List RawField) :
    ∀ (bf' : List RawField),
    FilterFtraceUsingAllowlist.filterBundle allow bf = Except.ok bf' →
    FilterFtraceUsingAllowlist.filterBundle allow bf' = Except.ok bf' := by
  induction bf with
  | nil =>
      intro bf' h
      simp [FilterFtraceUsingAllowlist.filterBundle] at h
      subst h
      rfl
  | cons fv rest ih =>
      intro bf' h
      obtain ⟨fid, v⟩ := fv
      rw [FilterFtraceUsingAllowlist.filterBundle] at h
      cases hr : FilterFtraceUsingAllowlist.filterBundle allow rest with
      | error e => rw [hr] at h; simp [Bind.bind, Except.bind] at h
      | ok rest' =>
          rw [hr] at h
          by_cases hfid : fid = kEventFieldNumber
          · cases v with
            | varint n => simp [hfid, Bind.bind, Except.bind] at h
            | lenDelim payload =>
                cases h2 : decodeMsg payload with
                | none => simp [hfid, h2, Bind.bind, Except.bind] at h
                | some evFields =>
                    by_cases hkeep : keepEvent allow evFields
                    · obtain rfl : (fid, WireVal.lenDelim payload) :: rest' = bf' := by
                        simpa [hfid, h2, hkeep, Bind.bind, Except.bind] using h
                      rw [FilterFtraceUsingAllowlist.filterBundle, ih rest' hr]
                      simp [hfid, h2, hkeep, Bind.bind, Except.bind]
                    · obtain rfl : rest' = bf' := by
                        simpa [hfid, h2, hkeep, Bind.bind, Except.bind] using h
                      exact ih rest' hr
          · obtain rfl : (fid, v) :: rest' = bf' := by
              simpa [hfid, Bind.bind, Except.bind] using h
            rw [FilterFtraceUsingAllowlist.filterBundle, ih rest' hr]
            simp [hfid, Bind.bind, Except.bind]

theorem scrubPacket_idem (allow : List Nat) (pf : List RawField) :
    ∀ (pf' : List RawField),
    ScrubFtraceEvents.scrubPacket allow pf = Except.ok pf' →
    ScrubFtraceEvents.scrubPacket allow pf' = Except.ok pf' := by
  induction pf with
  | nil =>
      intro pf' h
      simp [ScrubFtraceEvents.scrubPacket] at h
      subst h
      rfl
  | cons fv rest ih =>
      intro pf' h
      obtain ⟨fid, v⟩ := fv
      rw [ScrubFtraceEvents.scrubPacket] at h
      cases hr : ScrubFtraceEvents.scrubPacket allow rest with
      | error e => rw [hr] at h; simp [Bind.bind, Except.bind] at h
      | ok rest' =>
          rw [hr] at h
          by_cases hfid : fid = kFtraceEventsFieldNumber
          · cases v with
            | varint n => simp [hfid, Bind.bind, Except.bind] at h
            | lenDelim payload =>
                cases h2 : decodeMsg payload with
                | none => simp [hfid, h2, Bind.bind, Except.bind] at h
                | some bundleFields =>
                    cases hb : FilterFtraceUsingAllowlist.filterBundle allow bundleFields with
                    | error e => simp [hfid, h2, hb, Bind.bind, Except.bind] at h
                    | ok bundleFields' =>
                        obtain rfl :
                            (fid, WireVal.lenDelim (encodeMsg bundleFields')) :: rest'
                              = pf' := by
                          simpa [hfid, h2, hb, Bind.bind, Except.bind] using h
                        rw [ScrubFtraceEvents.scrubPacket, ih rest' hr]
                        simp [hfid, decodeMsg_encodeMsg,
                          filterBundle_idem allow bundleFields bundleFields' hb,
                          Bind.bind, Except.bind]
          · obtain rfl : (fid, v) :: rest' = pf' := by
              simpa [hfid, Bind.bind, Except.bind] using h
            rw [ScrubFtraceEvents.scrubPacket, ih rest' hr]
            simp [hfid, Bind.bind, Except.bind]

theorem scrubTrace_idem (allow : List Nat) (tf : List RawField) :
    ∀ (tf' : List RawField),
    ScrubFtraceEvents.scrubTrace allow tf = Except.ok tf' →
    ScrubFtraceEvents.scrubTrace allow tf' = Except.ok tf' := by
  induction tf with
  | nil =>
      intro tf' h
      simp [ScrubFtraceEvents.scrubTrace] at h
      subst h
      rfl
  | cons fv rest ih =>
      intro tf' h
      obtain ⟨fid, v⟩ := fv
      rw [ScrubFtraceEvents.scrubTrace] at h
      cases hr : ScrubFtraceEvents.scrubTrace allow rest with
      | error e => rw [hr] at h; simp [Bind.bind, Except.bind] at h
      | ok rest' =>
          rw [hr] at h
          by_cases hfid : fid = kPacketFieldNumber
          · cases v with
            | varint n => simp [hfid, Bind.bind, Except.bind] at h
            | lenDelim payload =>
                cases h2 : decodeMsg payload with
                | none => simp [hfid, h2, Bind.bind, Except.bind] at h
                | some packetFields =>
                    cases hp : ScrubFtraceEvents.scrubPacket allow packetFields with
                    | error e => simp [hfid, h2, hp, Bind.bind, Except.bind] at h
                    | ok packetFields' =>
                        obtain rfl :
                            (fid, WireVal.lenDelim (encodeMsg packetFields')) :: rest'
                              = tf' := by
                          simpa [hfid, h2, hp, Bind.bind, Except.bind] using h
                        rw [ScrubFtraceEvents.scrubTrace, ih rest' hr]
                        simp [hfid, decodeMsg_encodeMsg,
                          scrubPacket_idem allow packetFields packetFields' hp,
                          Bind.bind, Except.bind]
          · obtain rfl : (fid, v) :: rest' = tf' := by
              simpa [hfid, Bind.bind, Except.bind] using h
            rw [ScrubFtraceEvents.scrubTrace, ih rest' hr]
            simp [hfid, Bind.bind, Except.bind]

/-- Scrubbing an already-scrubbed trace is the identity, byte for byte. -/
theorem scrub_idem (allow : List Nat) (bytes out : List Nat)
    (h : ScrubFtraceEvents.scrub allow bytes = Except.ok out) :
    ScrubFtraceEvents.scrub allow out = Except.ok out := by
  rw [ScrubFtraceEvents.scrub] at h
  cases h1 : decodeMsg bytes with
  | none => rw [h1] at h; simp at h
  | some traceFields =>
      rw [h1] at h
      cases ht : ScrubFtraceEvents.scrubTrace allow traceFields with
      | error e => simp [ht, Bind.bind, Except.bind] at h
      | ok traceFields' =>
          obtain rfl : encodeMsg traceFields' = out := by
            simpa [ht, Bind.bind, Except.bind] using h
          rw [ScrubFtraceEvents.scrub, decodeMsg_encodeMsg]
          simp [scrubTrace_idem allow traceFields traceFields' ht,
            Bind.bind, Except.bind]

/-! ### Evaluating the test pipeline -/

theorem testPipeline_ok (src out : List Nat) (d : Option (List Nat))
    (hs : ScrubFtraceEvents.scrub PopulateAllowlists.allowlist src = Except.ok out) :
    testPipeline (some src) d = ⟨Except.ok (), some out⟩ := by
  rw [testPipeline, TraceRedactor.Redact]
  have hc : TraceRedactor.runCollectors [PopulateAllowlists.collector] src Context.empty
      = Except.ok (Context.write Context.empty ftraceAllowlistSlot
          PopulateAllowlists.allowlist) := rfl
  rw [hc]
  have ht : TraceRedactor.runTransforms [ScrubFtraceEvents.transform]
      (Context.write Context.empty ftraceAllowlistSlot PopulateAllowlists.allowlist) src
      = Except.ok out := by
    simp [TraceRedactor.runTransforms, List.foldlM, ScrubFtraceEvents.transform,
      Context.read, Context.write, hs, Bind.bind, Except.bind, pure, Except.pure]
  simp [ht]

theorem testPipeline_err (src : List Nat) (e : String) (d : Option (List Nat))
    (hs : ScrubFtraceEvents.scrub PopulateAllowlists.allowlist src = Except.error e) :
    testPipeline (some src) d = ⟨Except.error e, d⟩ := by
  rw [testPipeline, TraceRedactor.Redact]
  have hc : TraceRedactor.runCollectors [PopulateAllowlists.collector] src Context.empty
      = Except.ok (Context.write Context.empty ftraceAllowlistSlot
          PopulateAllowlists.allowlist) := rfl
  rw [hc]
  have ht : TraceRedactor.runTransforms [ScrubFtraceEvents.transform]
      (Context.write Context.empty ftraceAllowlistSlot PopulateAllowlists.allowlist) src
      = Except.error e := by
    simp [TraceRedactor.runTransforms, List.foldlM, ScrubFtraceEvents.transform,
      Context.read, Context.write, hs, Bind.bind, Except.bind, pure, Except.pure]
  simp [ht]

/-! ## A sample trace

Modelled from the spec: the binary sample
`test/data/trace-redaction-general.pftrace` is not part of the snapshot; this
trace realizes what the integration test asserts about it — sub-events of
twelve event types, each accompanied by the shared `timestamp` and `pid`
fields (14 distinct field identifiers in total). -/

def sampleEvent (eventId ts pid : Nat) : List RawField :=
  [(kTimestampFieldNumber, WireVal.varint ts),
   (kPidFieldNumber, WireVal.varint pid),
   (eventId, WireVal.lenDelim [])]

def sampleEventIds : List Nat :=
  [kCpuFrequencyFieldNumber, kCpuIdleFieldNumber, kOomScoreAdjUpdateFieldNumber,
   kPrintFieldNumber, kSchedProcessExitFieldNumber, kSchedProcessFreeFieldNumber,
   kSchedSwitchFieldNumber, kSchedWakeupFieldNumber, kSchedWakeupNewFieldNumber,
   kSchedWakingFieldNumber, kTaskNewtaskFieldNumber, kTaskRenameFieldNumber]

def sampleBundleFields : List RawField :=
  sampleEventIds.map
    (fun id => (kEventFieldNumber, WireVal.lenDelim (encodeMsg (sampleEvent id 100 7))))

def samplePacketFields : List RawField :=
  [(kFtraceEventsFieldNumber, WireVal.lenDelim (encodeMsg sampleBundleFields))]

def sampleTraceFields : List RawField :=
  [(kPacketFieldNumber, WireVal.lenDelim (encodeMsg samplePacketFields))]

/-- The serialized sample trace. -/
def sampleTrace : List Nat := encodeMsg sampleTraceFields

/-- The sample trace's decoded sub-events. -/
def sampleEvents : List (List RawField) := (allEvents sampleTrace).getD []

/-- The output the pipeline writes for the sample trace. -/
def sampleRedacted : List Nat :=
  ((testPipeline (some sampleTrace) none).dest).getD []

/-- Number of sub-events of one event type in a buffer. -/
def eventTypeCount (id : Nat) (bytes : List Nat) : Nat :=
  ((allEvents bytes).getD []).countP (fun ev => eventTypeId ev == some id)

/-- The field identifiers the test's `ParseEvents` gathers from the sample
source trace. -/
def sampleSrcIds : List Nat := (parseEventsIds sampleTrace).getD []

/-- The field identifiers the test's `ParseEvents` gathers from the redacted
sample trace. -/
def sampleOutIds : List Nat := (parseEventsIds sampleRedacted).getD []

end TraceRedaction

namespace VisualisedArgsTrack

/-! ## The VisualisedArgsTrack helper view (src/unnamed/part_000)

The constructor escapes the argument name, builds the helper view name from
it and a UUID, and `onInit` creates the view and returns a disposable that
drops it.  SQL strings are embedded verbatim (modulo whitespace); the single
quote is written `\x27`. -/

/-- ASCII letter test, the character class `[a-zA-Z]`. -/
def isAsciiLetter (c : Char) : Bool :=
  (65 ≤ c.toNat && c.toNat ≤ 90) || (97 ≤ c.toNat && c.toNat ≤ 122)

/-- `argName.replace(/[^a-zA-Z]/g, '_')` from the constructor. -/
def escapeArgName (s : String) : String :=
  String.mk (s.data.map (fun c => if isAsciiLetter c then c else '_'))

/-- `` `__arg_visualisation_helper_${escapedArgName}_${uuid}_slice` `` from
the constructor, with `uuid` the value of `uuidv4Sql()`. -/
def viewName (argName uuid : String) : String :=
  "__arg_visualisation_helper_" ++ escapeArgName argName ++ "_" ++ uuid ++ "_slice"

/-- The text of the `create view` statement issued by `onInit`, up to and
including the opening quote of the `args.key` comparison. -/
def createViewQueryHead (vn : String) : String :=
  "create view " ++ vn ++
    " as with slice_with_arg as ( select slice.id, slice.track_id, slice.ts, slice.dur, slice.thread_dur, NULL as cat, args.display_value as name from slice join args using (arg_set_id) where args.key=\x27"

/-- The text of the `create view` statement after the interpolated argument
name: the closing quote and the depth-computing outer select. -/
def createViewQueryTail : String :=
  "\x27 ) select *, ( select count() from ancestor_slice(s1.id) s2 join slice_with_arg s3 on s2.id=s3.id ) as depth from slice_with_arg s1 order by id;"

/-- The full `create view` statement: the argument name is interpolated
verbatim (unescaped) into the WHERE clause. -/
def createViewQuery (vn argName : String) : String :=
  createViewQueryHead vn ++ argName ++ createViewQueryTail

/-- The statement run by the disposable returned from `onInit`. -/
def dropViewQuery (vn : String) : String :=
  "drop view " ++ vn

/-- The result of `onInit`: the query it awaits, and the release action of
the `DisposableCallback` it returns. -/
def onInit (vn argName : String) : String × String :=
  (createViewQuery vn argName, dropViewQuery vn)

/-- Modelled from the spec: the scoped-acquisition harness around a track's
`onInit` — the framework invoking the `Disposable` is not part of the
snapshot.  The helper resource is acquired, the body runs to an outcome
(success, error, or explicit teardown), and the registered release action is
executed on every exit path.  Returns the queries issued, in order. -/
inductive BodyOutcome : Type where
  | success : BodyOutcome
  | failure (e : String) : BodyOutcome
  | teardown : BodyOutcome

def lifecycleQueries (argName uuid : String) (outcome : BodyOutcome) : List String :=
  let vn := viewName argName uuid
  let acquired := onInit vn argName
  match outcome with
  | BodyOutcome.success => [acquired.1, acquired.2]
  | BodyOutcome.failure _ => [acquired.1, acquired.2]
  | BodyOutcome.teardown => [acquired.1, acquired.2]

end VisualisedArgsTrack

namespace TraceRedaction

/-! ## The specification's claims about the redaction pipeline -/

/-- C1: for every source trace the decoder accepts, the run of the pipeline
succeeds and every event-type identifier observed in the redacted output is
one the allowlist Collector marked permitted — the observed set is a subset
of the populated allowlist, so no sub-event of a non-permitted type exists in
the output. -/
theorem redactedOutput_eventTypes_subset_allowlist (src : List Nat)
    (destBefore : Option (List Nat)) (evs : List (List RawField))
    (hsrc : allEvents src = some evs) :
    (testPipeline (some src) destBefore).status = Except.ok () ∧
    ∃ out ids, (testPipeline (some src) destBefore).dest = some out ∧
      observedEventTypeIds out = some ids ∧
      ∀ id ∈ ids, id ∈ PopulateAllowlists.allowlist := by
  obtain ⟨out, hs, he⟩ :=
    scrub_allEvents PopulateAllowlists.allowlist src evs hsrc
  rw [testPipeline_ok src out destBefore hs]
  refine ⟨rfl, out,
    (evs.filter (keepEvent PopulateAllowlists.allowlist)).filterMap eventTypeId,
    rfl, ?_, ?_⟩
  · rw [observedEventTypeIds, he]
    rfl
  · intro id hid
    rw [List.mem_filterMap] at hid
    obtain ⟨ev, hev, hty⟩ := hid
    have hk := (List.mem_filter.mp hev).2
    simp only [keepEvent, hty] at hk
    exact List.mem_of_elem_eq_true hk

set_option maxRecDepth 8000 in
/-- C1 witness: the claim instantiated on the sample trace. -/
theorem redactedOutput_eventTypes_subset_allowlist_witness :
    allEvents sampleTrace = some sampleEvents ∧
    ((testPipeline (some sampleTrace) none).status = Except.ok () ∧
      ∃ out ids, (testPipeline (some sampleTrace) none).dest = some out ∧
        observedEventTypeIds out = some ids ∧
        ∀ id ∈ ids, id ∈ PopulateAllowlists.allowlist) :=
  ⟨rfl, redactedOutput_eventTypes_subset_allowlist sampleTrace none sampleEvents rfl⟩

/-- C2: the orchestrator's run is all-or-nothing — when any stage fails the
destination path holds exactly what it held before (no file is created, a
pre-existing one is unchanged), and the destination holds the transformed
output exactly when the whole run succeeded. -/
theorem redact_allOrNothing (cs : List Collector) (ts : List Transform)
    (srcFile destBefore : Option (List Nat)) :
    (∀ e, (TraceRedactor.Redact cs ts srcFile destBefore).status = Except.error e →
      (TraceRedactor.Redact cs ts srcFile destBefore).dest = destBefore) ∧
    ((TraceRedactor.Redact cs ts srcFile destBefore).status = Except.ok () →
      ∃ src ctx out, srcFile = some src ∧
        TraceRedactor.runCollectors cs src Context.empty = Except.ok ctx ∧
        TraceRedactor.runTransforms ts ctx src = Except.ok out ∧
        (TraceRedactor.Redact cs ts srcFile destBefore).dest = some out) := by
  cases srcFile with
  | none =>
      refine ⟨fun e he => rfl, fun hok => ?_⟩
      simp [TraceRedactor.Redact] at hok
  | some src =>
      cases hc : TraceRedactor.runCollectors cs src Context.empty with
      | error e2 =>
          refine ⟨fun e he => ?_, fun hok => ?_⟩
          · simp [TraceRedactor.Redact, hc]
          · simp [TraceRedactor.Redact, hc] at hok
      | ok ctx =>
          cases ht : TraceRedactor.runTransforms ts ctx src with
          | error e2 =>
              refine ⟨fun e he => ?_, fun hok => ?_⟩
              · simp [TraceRedactor.Redact, hc, ht]
              · simp [TraceRedactor.Redact, hc, ht] at hok
          | ok out =>
              refine ⟨fun e he => ?_, fun hok => ?_⟩
              · simp [TraceRedactor.Redact, hc, ht] at he
              · exact ⟨src, ctx, out, rfl, hc, ht,
                  by simp [TraceRedactor.Redact, hc, ht]⟩

/-- C2 witness: a run whose source is unreadable leaves a pre-existing
destination untouched. -/
theorem redact_allOrNothing_witness :
    (TraceRedactor.Redact [] [] none (some [1, 2, 3])).dest = some [1, 2, 3] :=
  (redact_allOrNothing [] [] none (some [1, 2, 3])).1
    "I/O error: failed to read source trace" rfl

/-- C4: for every source trace the decoder accepts, the pipeline succeeds and
its output is itself accepted by the same decoder, down through every nesting
level — every emitted field has a valid tag and length and no nested
length prefix is left dangling after sub-event deletions. -/
theorem redactedOutput_decodable (src : List Nat)
    (destBefore : Option (List Nat)) (evs : List (List RawField))
    (hsrc : allEvents src = some evs) :
    (testPipeline (some src) destBefore).status = Except.ok () ∧
    ∃ out, (testPipeline (some src) destBefore).dest = some out ∧
      (allEvents out).isSome = true := by
  obtain ⟨out, hs, he⟩ :=
    scrub_allEvents PopulateAllowlists.allowlist src evs hsrc
  rw [testPipeline_ok src out destBefore hs]
  exact ⟨rfl, out, rfl, by rw [he]; rfl⟩

set_option maxRecDepth 8000 in
/-- C4 witness: the claim instantiated on the sample trace. -/
theorem redactedOutput_decodable_witness :
    allEvents sampleTrace = some sampleEvents ∧
    ((testPipeline (some sampleTrace) none).status = Except.ok () ∧
      ∃ out, (testPipeline (some sampleTrace) none).dest = some out ∧
        (allEvents out).isSome = true) :=
  ⟨rfl, redactedOutput_decodable sampleTrace none sampleEvents rfl⟩

/-- C5: the redacted output's sub-events are exactly the passing sub-events
of the source, byte-identical — so the shared non-discriminating fields
(timestamp, pid) accompanying a passing sub-event are present, unmodified, in
the output; and the discriminator is never an accompanying field, so those
fields survive no matter which other sub-events were dropped. -/
theorem accompanyingFields_survive (allow : List Nat) (src out : List Nat)
    (evs : List (List RawField)) (hsrc : allEvents src = some evs)
    (hscrub : ScrubFtraceEvents.scrub allow src = Except.ok out) :
    ∃ outEvs, allEvents out = some outEvs ∧
      outEvs = evs.filter (keepEvent allow) ∧
      (∀ ev ∈ evs, keepEvent allow ev = true → ev ∈ outEvs) ∧
      (∀ (ev : List RawField) (id : Nat), eventTypeId ev = some id →
        accompanyingField id = false) := by
  obtain ⟨out', hs, he⟩ := scrub_allEvents allow src evs hsrc
  rw [hscrub] at hs
  injection hs with h
  subst h
  refine ⟨evs.filter (keepEvent allow), he, rfl, ?_, ?_⟩
  · intro ev hev hk
    exact List.mem_filter.mpr ⟨hev, hk⟩
  · intro ev id hty
    unfold eventTypeId at hty
    obtain ⟨f, hf, hfid⟩ := Option.map_eq_some'.mp hty
    have hp := List.find?_some hf
    rw [← hfid]
    simpa using hp

set_option maxRecDepth 8000 in
/-- C5 witness: the claim instantiated on the sample trace. -/
theorem accompanyingFields_survive_witness :
    allEvents sampleTrace = some sampleEvents ∧
    ScrubFtraceEvents.scrub PopulateAllowlists.allowlist sampleTrace
      = Except.ok sampleRedacted ∧
    (∃ outEvs, allEvents sampleRedacted = some outEvs ∧
      outEvs = sampleEvents.filter (keepEvent PopulateAllowlists.allowlist) ∧
      (∀ ev ∈ sampleEvents,
        keepEvent PopulateAllowlists.allowlist ev = true → ev ∈ outEvs) ∧
      (∀ (ev : List RawField) (id : Nat), eventTypeId ev = some id →
        accompanyingField id = false)) :=
  ⟨rfl, rfl, accompanyingFields_survive PopulateAllowlists.allowlist sampleTrace
    sampleRedacted sampleEvents rfl rfl⟩

/-- C7: the allowlist-filter transform is idempotent — run a second time on
an already-redacted trace it succeeds and returns the byte-identical trace,
with no further deletions. -/
theorem allowlistFilter_idempotent (allow : List Nat) (bytes out : List Nat)
    (h : ScrubFtraceEvents.scrub allow bytes = Except.ok out) :
    ScrubFtraceEvents.scrub allow out = Except.ok out :=
  scrub_idem allow bytes out h

set_option maxRecDepth 8000 in
/-- C7 witness: the claim instantiated on the sample trace. -/
theorem allowlistFilter_idempotent_witness :
    ScrubFtraceEvents.scrub PopulateAllowlists.allowlist sampleTrace
      = Except.ok sampleRedacted ∧
    ScrubFtraceEvents.scrub PopulateAllowlists.allowlist sampleRedacted
      = Except.ok sampleRedacted :=
  ⟨rfl, allowlistFilter_idempotent PopulateAllowlists.allowlist sampleTrace
    sampleRedacted rfl⟩

/-- C8: reading a Context slot no Collector populated is signaled as an
error naming the slot, never silently defaulted; a pipeline whose transform
reads the unpopulated allowlist slot fails the whole run with that error and
leaves the destination untouched. -/
theorem unpopulatedContextSlot_read_errors (ctx : Context) (slot : String)
    (h : ctx slot = none) :
    Context.read ctx slot = Except.error ("missing context slot: " ++ slot) ∧
    (∀ v, Context.read ctx slot ≠ Except.ok v) ∧
    (∀ (b : List Nat) (d : Option (List Nat)),
      (TraceRedactor.Redact [] [ScrubFtraceEvents.transform] (some b) d).status
        = Except.error ("missing context slot: " ++ ftraceAllowlistSlot) ∧
      (TraceRedactor.Redact [] [ScrubFtraceEvents.transform] (some b) d).dest = d) := by
  refine ⟨by simp [Context.read, h], ?_, ?_⟩
  · intro v hv
    simp [Context.read, h] at hv
  · intro b d
    exact ⟨rfl, rfl⟩

/-- C8 witness: the claim instantiated on the empty Context and the
allowlist slot. -/
theorem unpopulatedContextSlot_read_errors_witness :
    Context.empty ftraceAllowlistSlot = none ∧
    (Context.read Context.empty ftraceAllowlistSlot
        = Except.error ("missing context slot: " ++ ftraceAllowlistSlot) ∧
      (∀ v, Context.read Context.empty ftraceAllowlistSlot ≠ Except.ok v) ∧
      (∀ (b : List Nat) (d : Option (List Nat)),
        (TraceRedactor.Redact [] [ScrubFtraceEvents.transform] (some b) d).status
          = Except.error ("missing context slot: " ++ ftraceAllowlistSlot) ∧
        (TraceRedactor.Redact [] [ScrubFtraceEvents.transform] (some b) d).dest = d)) :=
  ⟨rfl, unpopulatedContextSlot_read_errors Context.empty ftraceAllowlistSlot rfl⟩

end TraceRedaction

namespace TraceRedaction

set_option maxRecDepth 8000 in
/-- C3: the worked scenario on the sample trace — fourteen distinct field
identifiers in the source's sub-events; after redaction only the nine
permitted identifiers remain (the seven allowlisted event types including
cpu-frequency-change and process-rename, plus the shared timestamp and pid
fields), every occurrence of cpu-frequency-change and process-rename is
retained, pid is present on all surviving sub-events, and the five
non-permitted types (print and sched-wakeup among them) are absent. -/
theorem sampleTrace_redaction_scenario :
    (testPipeline (some sampleTrace) none).status = Except.ok () ∧
    (testPipeline (some sampleTrace) none).dest = some sampleRedacted ∧
    parseEventsIds sampleTrace = some sampleSrcIds ∧
    sampleSrcIds.length = 14 ∧
    parseEventsIds sampleRedacted = some sampleOutIds ∧
    sampleOutIds.length = 9 ∧
    (∀ id ∈ PopulateAllowlists.allowlist, id ∈ sampleOutIds) ∧
    kPidFieldNumber ∈ sampleOutIds ∧
    kTimestampFieldNumber ∈ sampleOutIds ∧
    kOomScoreAdjUpdateFieldNumber ∉ sampleOutIds ∧
    kPrintFieldNumber ∉ sampleOutIds ∧
    kSchedProcessExitFieldNumber ∉ sampleOutIds ∧
    kSchedWakeupFieldNumber ∉ sampleOutIds ∧
    kSchedWakeupNewFieldNumber ∉ sampleOutIds ∧
    eventTypeCount kCpuFrequencyFieldNumber sampleRedacted
      = eventTypeCount kCpuFrequencyFieldNumber sampleTrace ∧
    eventTypeCount kTaskRenameFieldNumber sampleRedacted
      = eventTypeCount kTaskRenameFieldNumber sampleTrace ∧
    1 ≤ eventTypeCount kCpuFrequencyFieldNumber sampleTrace ∧
    (∀ ev ∈ (allEvents sampleRedacted).getD [],
      ev.any (fun f => f.1 == kPidFieldNumber) = true) :=
  ⟨rfl, rfl, by decide⟩

/-- C6: a Transform's primitives compose — applying the ordered list
P1..Pn to every packet in one pass equals applying them as n successive
whole-trace passes, one primitive per pass, order preserved. -/
theorem primitives_onePass_eq_successivePasses (ps : List Primitive)
    (ctx : Context) (trace : List (List RawField)) :
    Transform.onePass ps ctx trace = Transform.successivePasses ps ctx trace := by
  induction ps generalizing trace with
  | nil =>
      simp only [Transform.onePass, Transform.successivePasses]
      have h0 : Transform.applyPrimitives ([] : List Primitive) ctx = fun pk => pk := by
        funext pk
        rfl
      rw [h0]
      simp
  | cons p ps ih =>
      have h1 : Transform.onePass (p :: ps) ctx trace
          = Transform.onePass ps ctx (trace.map (fun pk => p ctx pk)) := by
        simp [Transform.onePass, Transform.applyPrimitives, List.map_map]
      rw [h1, ih]
      rfl

end TraceRedaction

namespace VisualisedArgsTrack

/-! ## The specification's claims about the visualization track -/

theorem stringAppend_assoc (a b c : String) : a ++ b ++ c = a ++ (b ++ c) := by
  apply String.ext
  simp

/-- C9: `onInit` creates the helper view and returns a disposable whose
release action drops exactly the view that was created (the same view name),
and in the scoped-acquisition lifecycle the release action runs on every exit
path — success, error, or explicit teardown. -/
theorem onInit_disposable_drops_created_view (argName uuid : String)
    (outcome : BodyOutcome) :
    (onInit (viewName argName uuid) argName).1
      = createViewQuery (viewName argName uuid) argName ∧
    (onInit (viewName argName uuid) argName).2
      = "drop view " ++ viewName argName uuid ∧
    lifecycleQueries argName uuid outcome
      = [createViewQuery (viewName argName uuid) argName,
         "drop view " ++ viewName argName uuid] := by
  refine ⟨rfl, rfl, ?_⟩
  cases outcome <;> rfl

set_option maxRecDepth 40000 in
/-- C10: the helper view name is exactly the fixed head, the argument name
with every non-ASCII-letter character replaced by an underscore, the UUID and
the suffix; the escaped part holds only ASCII letters and underscores; and
the unescaped argument name is interpolated verbatim into the WHERE clause of
the create-view statement. -/
theorem viewName_construction_and_escaping (argName uuid : String) :
    viewName argName uuid
      = "__arg_visualisation_helper_" ++ escapeArgName argName ++ "_" ++ uuid
        ++ "_slice" ∧
    (escapeArgName argName).data
      = argName.data.map (fun c => if isAsciiLetter c then c else '_') ∧
    (∀ c ∈ (escapeArgName argName).data, isAsciiLetter c = true ∨ c = '_') ∧
    (∃ pre post, createViewQuery (viewName argName uuid) argName
      = pre ++ ("args.key=\x27" ++ argName ++ "\x27") ++ post) := by
  refine ⟨rfl, rfl, ?_, ?_⟩
  · intro c hc
    rw [show (escapeArgName argName).data
        = argName.data.map (fun c => if isAsciiLetter c then c else '_') from rfl] at hc
    rw [List.mem_map] at hc
    obtain ⟨a, -, rfl⟩ := hc
    by_cases h : isAsciiLetter a
    · left
      simp [h]
    · right
      simp [h]
  · refine ⟨"create view " ++ viewName argName uuid
      ++ " as with slice_with_arg as ( select slice.id, slice.track_id, slice.ts, slice.dur, slice.thread_dur, NULL as cat, args.display_value as name from slice join args using (arg_set_id) where ",
      " ) select *, ( select count() from ancestor_slice(s1.id) s2 join slice_with_arg s3 on s2.id=s3.id ) as depth from slice_with_arg s1 order by id;", ?_⟩
    have hW : (" as with slice_with_arg as ( select slice.id, slice.track_id, slice.ts, slice.dur, slice.thread_dur, NULL as cat, args.display_value as name from slice join args using (arg_set_id) where args.key=\x27" : String)
        = " as with slice_with_arg as ( select slice.id, slice.track_id, slice.ts, slice.dur, slice.thread_dur, NULL as cat, args.display_value as name from slice join args using (arg_set_id) where "
          ++ "args.key=\x27" := by decide
    have hT : createViewQueryTail
        = "\x27"
          ++ " ) select *, ( select count() from ancestor_slice(s1.id) s2 join slice_with_arg s3 on s2.id=s3.id ) as depth from slice_with_arg s1 order by id;" := by
      decide
    rw [createViewQuery, createViewQueryHead, hW, hT]
    simp only [stringAppend_assoc]

end VisualisedArgsTrack
